import Mathlib

/-!
Verification development for the `causalmodel` repository
(`potentialoutcome.py`, `observational.py`, `experimental.py`).

Conventions of the embedding:
* numpy float arrays of length `n` are embedded as functions `Fin n → ℝ`
  (elementwise numpy operations become pointwise operations); the raw,
  possibly ill-typed constructor inputs of `POdata` are embedded as lists
  wrapped in an `NpVec`/`NpMat` sum type so that the "not an ndarray"
  branch of `verify_data` is expressible.
* `np.mean` is sum divided by length and `np.var` is the population
  variance (`ddof = 0`), exactly as numpy computes them.
* external collaborators (scipy's KDTree neighbour search, sklearn's
  learning models, the experimental `Design`) are parameters of the
  embedded estimators, mirroring the spec's "external capability"
  treatment; sklearn's deterministic `KFold` split is embedded concretely
  from its documented behaviour.
* `scipy.stats.norm.cdf` is embedded as the integral of the standard
  gaussian density over `Iic x`.
-/

open Real Set

noncomputable section

/-- `np.mean` of a length-`n` array: sum over all entries divided by `n`. -/
def npMean {n : ℕ} (Y : Fin n → ℝ) : ℝ := (∑ i, Y i) / n

/-- `np.var` of a length-`n` array (population variance, `ddof = 0`). -/
def npVar {n : ℕ} (Y : Fin n → ℝ) : ℝ := (∑ i, (Y i - npMean Y) ^ 2) / n

open MeasureTheory ProbabilityTheory in
/-- `scipy.stats.norm.cdf`: cumulative distribution function of the
standard normal distribution. -/
def normCdf (x : ℝ) : ℝ := ∫ t in Iic x, gaussianPDFReal 0 1 t

/-- The record produced by the result builder (`result.py`'s `Result`):
point estimate, standard error, z statistic, p-value, confidence
interval. -/
structure Result where
  effect : ℝ
  standard_error : ℝ
  z : ℝ
  p_value : ℝ
  confidence_interval : ℝ × ℝ

/-- The shared result-builder formulas, as written in
`PotentialOutcome._get_results`:
`z = ate/se`, `p_value = (1 - norm.cdf(ate/se))*2`,
`confidence_interval = (ate - 1.96*se, ate + 1.96*se)`.
The two-argument builder `_get_results(ate, se)` used by `Observational`
and `Experimental` lives in a file absent from `src/` (`model.py`);
modelled from the spec (§4.7): it is the same pure `(effect, se) ↦ record`
map, shared by every estimator. -/
def buildResult (ate se : ℝ) : Result :=
  { effect := ate
    standard_error := se
    z := ate / se
    p_value := (1 - normCdf (ate / se)) * 2
    confidence_interval := (ate - 1.96 * se, ate + 1.96 * se) }

/-- `PotentialOutcome._get_results(G)`: `ate = np.mean(G)`,
`se = sqrt(np.var(G)/(len(G)-1))`, then the shared builder. -/
def getResults {n : ℕ} (G : Fin n → ℝ) : Result :=
  buildResult (npMean G) (Real.sqrt (npVar G / ((n : ℝ) - 1)))

/-! ### Facts about the standard normal CDF -/

open MeasureTheory ProbabilityTheory in
lemma stdGaussianPDF_even (x : ℝ) :
    gaussianPDFReal 0 1 (-x) = gaussianPDFReal 0 1 x := by
  simp [gaussianPDFReal, neg_sq]

open MeasureTheory ProbabilityTheory in
lemma integrable_stdGaussianPDF : Integrable (gaussianPDFReal 0 1) :=
  integrable_gaussianPDFReal 0 1

open MeasureTheory ProbabilityTheory in
lemma normCdf_zero : normCdf 0 = 1 / 2 := by
  have htot : (∫ x, gaussianPDFReal 0 1 x) = 1 :=
    integral_gaussianPDFReal_eq_one 0 one_ne_zero
  have hsplit :
      (∫ x in Iic (0:ℝ), gaussianPDFReal 0 1 x)
        + ∫ x in Ioi (0:ℝ), gaussianPDFReal 0 1 x
        = ∫ x, gaussianPDFReal 0 1 x := by
    have := integral_add_compl (measurableSet_Iic (a := (0:ℝ)))
      integrable_stdGaussianPDF
    simpa [compl_Iic] using this
  have hsym :
      (∫ x in Iic (0:ℝ), gaussianPDFReal 0 1 x)
        = ∫ x in Ioi (0:ℝ), gaussianPDFReal 0 1 x := by
    have h1 : (∫ x in Iic (0:ℝ), gaussianPDFReal 0 1 (-x))
        = ∫ x in Ioi (-(0:ℝ)), gaussianPDFReal 0 1 x :=
      integral_comp_neg_Iic 0 (gaussianPDFReal 0 1)
    have h2 : (∫ x in Iic (0:ℝ), gaussianPDFReal 0 1 (-x))
        = ∫ x in Iic (0:ℝ), gaussianPDFReal 0 1 x := by
      refine setIntegral_congr_fun measurableSet_Iic (fun x _ => ?_)
      exact stdGaussianPDF_even x
    rw [← h2, h1, neg_zero]
  have : (2 : ℝ) * normCdf 0 = 1 := by
    rw [normCdf, two_mul]
    calc (∫ x in Iic (0:ℝ), gaussianPDFReal 0 1 x)
          + ∫ x in Iic (0:ℝ), gaussianPDFReal 0 1 x
        = (∫ x in Iic (0:ℝ), gaussianPDFReal 0 1 x)
          + ∫ x in Ioi (0:ℝ), gaussianPDFReal 0 1 x := by rw [hsym]
      _ = ∫ x, gaussianPDFReal 0 1 x := hsplit
      _ = 1 := htot
  linarith

open MeasureTheory ProbabilityTheory in
lemma setIntegral_stdGaussianPDF_pos {z b : ℝ} (h : z < b) :
    0 < ∫ x in Ioc z b, gaussianPDFReal 0 1 x := by
  rw [setIntegral_pos_iff_support_of_nonneg_ae]
  · have hsupp : Function.support (gaussianPDFReal 0 1) = Set.univ := by
      ext x
      simp [Function.mem_support,
        (gaussianPDFReal_pos 0 1 x one_ne_zero).ne']
    rw [hsupp, Set.univ_inter, Real.volume_Ioc]
    simp [h]
  · exact Filter.Eventually.of_forall
      (fun x => (gaussianPDFReal_pos 0 1 x one_ne_zero).le)
  · exact integrable_stdGaussianPDF.integrableOn

open MeasureTheory ProbabilityTheory in
lemma normCdf_lt_half {z : ℝ} (hz : z < 0) : normCdf z < 1 / 2 := by
  have hsplit : normCdf 0 = normCdf z + ∫ x in Ioc z 0, gaussianPDFReal 0 1 x := by
    rw [normCdf, normCdf, ← setIntegral_union (Iic_disjoint_Ioc le_rfl)
      measurableSet_Ioc integrable_stdGaussianPDF.integrableOn
      integrable_stdGaussianPDF.integrableOn,
      Iic_union_Ioc_eq_Iic hz.le]
  have hpos := setIntegral_stdGaussianPDF_pos (b := 0) hz
  have := normCdf_zero
  linarith

/-! ### Masked numpy operations (`A[Z == v]`) over `Fin n`-indexed arrays -/

open scoped Classical

/-- `len(A[Z == v])`: number of indices where `Z` equals `v`. -/
def maskCard {n : ℕ} (Z : Fin n → ℝ) (v : ℝ) : ℕ :=
  (Finset.univ.filter (fun i => Z i = v)).card

/-- `np.sum(Y[Z == v])`. -/
def maskSum {n : ℕ} (Y Z : Fin n → ℝ) (v : ℝ) : ℝ :=
  ∑ i in Finset.univ.filter (fun i => Z i = v), Y i

/-- `np.mean(Y[Z == v])`. -/
def maskMean {n : ℕ} (Y Z : Fin n → ℝ) (v : ℝ) : ℝ :=
  maskSum Y Z v / maskCard Z v

/-- `np.var(Y[Z == v])` (population variance). -/
def maskVar {n : ℕ} (Y Z : Fin n → ℝ) (v : ℝ) : ℝ :=
  (∑ i in Finset.univ.filter (fun i => Z i = v),
    (Y i - maskMean Y Z v) ^ 2) / maskCard Z v

/-! ### Propensity fixing and the IPW / AIPW estimators
(`observational.py` / `potentialoutcome.py`) -/

/-- `self.eps` as set in the constructors. -/
def eps : ℝ := 1e-4

/-- `_fix_propensity`: if `np.sum((p*(1-p)) == 0) > 0`, first add `eps` to
the entries equal to 0, then subtract `eps` from the entries (of the
updated array) equal to 1, and emit a warning carrying the count;
otherwise leave the array untouched and emit no warning.  The second
component is `some count` exactly when the warning is raised. -/
def fixPropensity {n : ℕ} (p : Fin n → ℝ) : (Fin n → ℝ) × Option ℕ :=
  let bad := (Finset.univ.filter (fun i => p i * (1 - p i) = 0)).card
  if 0 < bad then
    (fun i =>
      let a := if p i = 0 then p i + eps else p i
      if a = 1 then a - eps else a,
      some bad)
  else (p, none)

/-- `est_via_ipw` with a precomputed propensity vector:
`w1 = Z/p`, `w0 = (1-Z)/(1-p)`; if `normalize` then
`G = w1*Y/(sum(w1)/n) - w0*Y/(sum(w0)/n)` else `G = w1*Y - w0*Y`;
then the shared `_get_results(np.mean(G), sqrt(np.var(G)/(n-1)))`. -/
def estViaIpw {n : ℕ} (Y Z p : Fin n → ℝ) (normalize : Bool) : Result :=
  let q := (fixPropensity p).1
  let w1 : Fin n → ℝ := fun i => Z i / q i
  let w0 : Fin n → ℝ := fun i => (1 - Z i) / (1 - q i)
  let G : Fin n → ℝ :=
    if normalize then
      fun i => w1 i * Y i / ((∑ j, w1 j) / n) - w0 i * Y i / ((∑ j, w0 j) / n)
    else
      fun i => w1 i * Y i - w0 i * Y i
  getResults G

/-- `est_via_aipw` with precomputed outcome predictions and propensity:
`G = treated_pred - control_pred + Z*(Y-treated_pred)/p
   - (1-Z)*(Y-control_pred)/(1-p)`. -/
def estViaAipw {n : ℕ} (Y Z treated_pred control_pred p : Fin n → ℝ) : Result :=
  let q := (fixPropensity p).1
  getResults (fun i =>
    treated_pred i - control_pred i
      + Z i * (Y i - treated_pred i) / q i
      - (1 - Z i) * (Y i - control_pred i) / (1 - q i))

/-! ### Experimental: difference in means and the Fisher test
(`experimental.py`) -/

/-- `cal_dm(Z, Y)`: `ate = mean(Y[Z==1]) - mean(Y[Z==0])`,
`se = sqrt(var(Y[Z==1])/sum(Z==1) + var(Y[Z==0])/sum(Z==0))`. -/
def calDm {n : ℕ} (Z Y : Fin n → ℝ) : ℝ × ℝ :=
  (maskMean Y Z 1 - maskMean Y Z 0,
   Real.sqrt (maskVar Y Z 1 / maskCard Z 1 + maskVar Y Z 0 / maskCard Z 0))

/-- The mutable statistic state of an `Experimental` object: outcome and
observed assignment, plus `self.stats` and `self.cal_stats`, both
initialized to `None` in `__init__`. -/
structure ExpState (n : ℕ) where
  Y : Fin n → ℝ
  Z : Fin n → ℝ
  stats : Option ℝ
  cal_stats : Option ((Fin n → ℝ) → ℝ)

/-- `Experimental.__init__`: `self.stats = None`, `self.cal_stats = None`. -/
def expInit {n : ℕ} (Y Z : Fin n → ℝ) : ExpState n := ⟨Y, Z, none, none⟩

/-- `est_via_dm`: store the statistic function
`lambda Z: np.mean(Y[Z==1]) - np.mean(Y[Z==0])` and its value at the
observed assignment, and return the built result from `cal_dm`. -/
def estViaDm {n : ℕ} (s : ExpState n) : ExpState n × Result :=
  let f : (Fin n → ℝ) → ℝ := fun Zs => maskMean s.Y Zs 1 - maskMean s.Y Zs 0
  let r := calDm s.Z s.Y
  ({ s with cal_stats := some f, stats := some (f s.Z) },
   buildResult r.1 r.2)

/-- `test_via_fisher`, parametric in the list of assignment vectors drawn
from the external `Design` capability.  If the statistic state is still
`None` the call fails (the Python code raises `TypeError` on
`self.cal_stats(Z_s)`), modelled as `none`; otherwise it returns
`min(np.mean(T_s > stats), np.mean(T_s < stats))`. -/
def testViaFisher {n : ℕ} (s : ExpState n) (draws : List (Fin n → ℝ)) :
    Option ℝ :=
  match s.cal_stats, s.stats with
  | some f, some t =>
    let Ts := draws.map f
    some (min (((Ts.filter (fun x => decide (t < x))).length : ℝ) / Ts.length)
              (((Ts.filter (fun x => decide (x < t))).length : ℝ) / Ts.length))
  | _, _ => none

/-! ### The partitioned dataset `POdata` (`potentialoutcome.py`) -/

/-- A constructor argument that is either a numpy 1-d array or some other
Python object (so that `verify_data`'s `isinstance` check is expressible). -/
inductive NpVec where
  | arr (xs : List ℝ)
  | notArray

/-- A constructor argument that is either a numpy 2-d array (list of
rows) or some other Python object. -/
inductive NpMat where
  | arr (rows : List (List ℝ))
  | notArray

/-- `verify_data`: all three inputs are ndarrays and
`len(Y) == len(Z) == len(X)`. -/
def verifyData : NpVec → NpVec → NpMat → Bool
  | .arr y, .arr z, .arr x => decide (y.length = z.length ∧ z.length = x.length)
  | _, _, _ => false

/-- `A[Z == v]` for a list `A` paired with a mask list `Z`. -/
def npSelect {α : Type} (A : List α) (Z : List ℝ) (v : ℝ) : List α :=
  ((A.zip Z).filter (fun q => decide (q.2 = v))).map Prod.fst

/-- The derived attributes set by `POdata.__init__` when `verify_data`
succeeds: `n`, `Yt`, `Yc`, `Xt`, `Xc`. -/
structure POderived where
  n : ℕ
  Yt : List ℝ
  Yc : List ℝ
  Xt : List (List ℝ)
  Xc : List (List ℝ)

/-- The object produced by `POdata.__init__`: the three stored inputs,
the derived partition attributes (absent when validation failed), and
whether `logging.error` was called. -/
structure POdata where
  Y : NpVec
  Z : NpVec
  X : NpMat
  derived : Option POderived
  loggedError : Bool

/-- `POdata.__init__`: store `Y`, `Z`, `X`; if `verify_data()` holds,
compute `n = len(Y)` and the four partition sub-arrays using the masks
`Z == 1` / `Z == 0`; otherwise log an error and leave the derived
attributes unset.  No exception is raised on either path. -/
def mkPOdata (Y Z : NpVec) (X : NpMat) : POdata :=
  match Y, Z, X with
  | .arr y, .arr z, .arr x =>
    if y.length = z.length ∧ z.length = x.length then
      ⟨.arr y, .arr z, .arr x,
        some ⟨y.length, npSelect y z 1, npSelect y z 0,
              npSelect x z 1, npSelect x z 0⟩, false⟩
    else ⟨.arr y, .arr z, .arr x, none, true⟩
  | Y, Z, X => ⟨Y, Z, X, none, true⟩

/-- Modelled from the spec: "Construction fails with a `ValidationError`
if types/lengths mismatch" (§3) — the spec-side constructor aborts with
an error value on invalid input instead of completing construction. -/
def mkPOdataSpec (Y Z : NpVec) (X : NpMat) : Except String POdata :=
  if verifyData Y Z X then Except.ok (mkPOdata Y Z X)
  else Except.error "ValidationError"

/-! ### The matching estimator (`est_via_matching`)

The nearest-neighbour searches (`mat_match_mat`, scipy's `KDTree`) and
the OLS predictions used by the bias adjustment are external
collaborators; they enter as parameters.  `match_for_t` maps each
treated unit to its `M` matched control donors, `match_for_c` each
control unit to its `M` treated donors, and `match_tt`/`match_cc` are
the same-arm matchings with `J+1` neighbours used for the variance.
`nt`/`nc` are the partition sizes (the `data.nt`/`data.nc` attributes
used at line 172 are not defined by the `POdata` in `src/`; per the spec
they are the treated/control counts). -/

/-- `np.mean` over an arbitrary finite index type (used for the
concatenated length-`n` arrays `np.append(Yt, ...)`, indexed by
`Fin nt ⊕ Fin nc`). -/
def finMean {ι : Type} [Fintype ι] (f : ι → ℝ) : ℝ :=
  (∑ i, f i) / (Fintype.card ι)

/-- `est_via_matching` with the neighbour matrices and (for the bias
adjustment) the fitted outcome-model predictions as parameters.
`mu0t`/`mu0c` are the control-arm model `mu0` evaluated on `Xt`/`Xc`,
`mu1t`/`mu1c` the treated-arm model `mu1` likewise. -/
def estViaMatching (nt nc M J : ℕ) (Yt : Fin nt → ℝ) (Yc : Fin nc → ℝ)
    (matchT : Fin nt → Fin M → Fin nc) (matchC : Fin nc → Fin M → Fin nt)
    (matchTT : Fin nt → Fin (J + 1) → Fin nt)
    (matchCC : Fin nc → Fin (J + 1) → Fin nc)
    (bias_adj : Bool) (mu0t : Fin nt → ℝ) (mu0c : Fin nc → ℝ)
    (mu1t : Fin nt → ℝ) (mu1c : Fin nc → ℝ) : Result :=
  let n : ℕ := nt + nc
  let Yhat_c : Fin nc → ℝ := fun c => npMean (fun j => Yt (matchC c j))
  let Yhat_t : Fin nt → ℝ := fun t => npMean (fun j => Yc (matchT t j))
  let ITT_t : Fin nt → ℝ := fun t => Yt t - Yhat_t t
  let ITT_c : Fin nc → ℝ := fun c => Yhat_c c - Yc c
  let Yhat1 : Fin nt ⊕ Fin nc → ℝ := Sum.elim Yt Yhat_c
  let Yhat0 : Fin nt ⊕ Fin nc → ℝ := Sum.elim Yhat_t Yc
  let atc : ℝ := npMean ITT_c
  let att : ℝ := npMean ITT_t
  let ateRaw : ℝ := ((nc : ℝ) / n) * atc + ((nt : ℝ) / n) * att
  let BM : ℝ :=
    (∑ t, (mu0t t - npMean (fun j => mu0c (matchT t j)))) / n
      - (∑ c, (mu1c c - npMean (fun j => mu1t (matchC c j)))) / n
  let ate : ℝ := if bias_adj then ateRaw - BM else ateRaw
  let Km : Fin nt ⊕ Fin nc → ℕ :=
    Sum.elim
      (fun t => (Finset.univ.filter
        (fun q : Fin nc × Fin M => matchC q.1 q.2 = t)).card)
      (fun c => (Finset.univ.filter
        (fun q : Fin nt × Fin M => matchT q.1 q.2 = c)).card)
  let Yhat_tt : Fin nt → ℝ := fun t => npMean (fun j => Yt (matchTT t j))
  let Yhat_cc : Fin nc → ℝ := fun c => npMean (fun j => Yc (matchCC c j))
  let Yall : Fin nt ⊕ Fin nc → ℝ := Sum.elim Yt Yc
  let Yclose : Fin nt ⊕ Fin nc → ℝ := Sum.elim Yhat_tt Yhat_cc
  let sigmaXW : Fin nt ⊕ Fin nc → ℝ :=
    fun s => ((J : ℝ) + 1) / J * (Yall s - Yclose s) ^ 2
  let V1 : Fin nt ⊕ Fin nc → ℝ := fun s => (Yhat1 s - Yhat0 s - ate) ^ 2
  let V2 : Fin nt ⊕ Fin nc → ℝ := fun s =>
    (((Km s : ℝ) / M) ^ 2 + (2 * M - 1) / M * ((Km s : ℝ) / M)) * sigmaXW s
  let V : ℝ := finMean (fun s => V1 s + V2 s)
  buildResult ate (Real.sqrt (V / n))

/-! ### DML (`est_via_dml`) with sklearn's deterministic `KFold` -/

/-- `np.mean` of a list. -/
def listMean (xs : List ℝ) : ℝ := xs.sum / xs.length

/-- `V.dot(U)` for equal-length lists. -/
def listDot (xs ys : List ℝ) : ℝ := (List.zipWith (· * ·) xs ys).sum

/-- Size of the `i`-th held-out fold of sklearn's
`KFold(n_splits=K)` on `n` samples (no shuffling): the first `n % K`
folds have `n / K + 1` samples, the rest `n / K`. -/
def foldSize (n K i : ℕ) : ℕ := n / K + if i < n % K then 1 else 0

/-- Start offset of the `i`-th held-out fold. -/
def foldStart (n K : ℕ) : ℕ → ℕ
  | 0 => 0
  | i + 1 => foldStart n K i + foldSize n K i

/-- The `i`-th held-out (test) index set: a contiguous block. -/
def kfTest (n K i : ℕ) : List ℕ :=
  (List.range (foldSize n K i)).map (foldStart n K i + ·)

/-- The `i`-th training index set: all remaining indices. -/
def kfTrain (n K i : ℕ) : List ℕ :=
  (List.range n).filter (fun m => decide (m ∉ kfTest n K i))

/-- `est_via_dml`: for each fold, fit the outcome model `Y ~ X` and the
treatment model `Z ~ X` on the training rows (the learning models are
external capabilities, passed as the fitting functions `fitO`/`fitT`
from training data to a predictor), compute the held-out residuals
`U = Y - Yhat` and `V = Z - Zhat`, the per-fold
`theta = V.dot(U)/V.dot(V)`, `phi2 = np.mean(V^2*(U - V*theta)^2)` and
`J = np.mean(V^2)`; finally
`ate = np.mean(thetas)` and
`se = sqrt(np.mean(phi2s)/np.mean(Js)^2)/sqrt(n)`.
Covariate rows have an abstract type `α`. -/
def estViaDml {α : Type} (n : ℕ) (Y Z : ℕ → ℝ) (X : ℕ → α)
    (fitO fitT : List α → List ℝ → (α → ℝ)) (K : ℕ) : Result :=
  let fold := fun i =>
    let tr := kfTrain n K i
    let te := kfTest n K i
    let g := fitO (tr.map X) (tr.map Y)
    let h := fitT (tr.map X) (tr.map Z)
    let U := te.map (fun m => Y m - g (X m))
    let V := te.map (fun m => Z m - h (X m))
    let theta := listDot V U / listDot V V
    let phi2 := listMean (List.zipWith (fun v u => v ^ 2 * (u - v * theta) ^ 2) V U)
    let Jk := listMean (V.map (fun v => v ^ 2))
    (theta, phi2, Jk)
  let rs := (List.range K).map fold
  buildResult (listMean (rs.map (fun r => r.1)))
    (Real.sqrt (listMean (rs.map (fun r => r.2.1))
      / (listMean (rs.map (fun r => r.2.2))) ^ 2) / Real.sqrt n)

/-! ### Helper lemmas -/

@[simp] lemma buildResult_effect (a s : ℝ) : (buildResult a s).effect = a := rfl

@[simp] lemma buildResult_se (a s : ℝ) :
    (buildResult a s).standard_error = s := rfl

@[simp] lemma buildResult_z (a s : ℝ) : (buildResult a s).z = a / s := rfl

@[simp] lemma buildResult_p (a s : ℝ) :
    (buildResult a s).p_value = (1 - normCdf (a / s)) * 2 := rfl

@[simp] lemma buildResult_ci (a s : ℝ) :
    (buildResult a s).confidence_interval = (a - 1.96 * s, a + 1.96 * s) := rfl

@[simp] lemma getResults_effect {n : ℕ} (G : Fin n → ℝ) :
    (getResults G).effect = npMean G := rfl

@[simp] lemma getResults_se {n : ℕ} (G : Fin n → ℝ) :
    (getResults G).standard_error = Real.sqrt (npVar G / ((n : ℝ) - 1)) := rfl

lemma maskSum_eq_sum_ite {n : ℕ} (Y Z : Fin n → ℝ) (v : ℝ) :
    maskSum Y Z v = ∑ i, if Z i = v then Y i else 0 :=
  Finset.sum_filter _ _

lemma maskCard_eq_sum_ite {n : ℕ} (Z : Fin n → ℝ) (v : ℝ) :
    maskCard Z v = ∑ i, if Z i = v then 1 else 0 :=
  Finset.card_filter _ _

lemma fixPropensity_of_no_bad {n : ℕ} (p : Fin n → ℝ)
    (h : ∀ i, p i * (1 - p i) ≠ 0) : fixPropensity p = (p, none) := by
  have hfilter : (Finset.univ.filter (fun i => p i * (1 - p i) = 0)) = ∅ :=
    Finset.filter_eq_empty_iff.mpr (fun i _ => h i)
  simp only [fixPropensity, hfilter, Finset.card_empty, lt_self_iff_false,
    if_false]

lemma sum_mul_of_binary {n : ℕ} (Y Z : Fin n → ℝ)
    (hbin : ∀ i, Z i = 0 ∨ Z i = 1) :
    (∑ i, Z i * Y i) = maskSum Y Z 1 := by
  rw [maskSum_eq_sum_ite]
  refine Finset.sum_congr rfl (fun i _ => ?_)
  rcases hbin i with h | h <;> simp [h]

lemma sum_one_sub_mul_of_binary {n : ℕ} (Y Z : Fin n → ℝ)
    (hbin : ∀ i, Z i = 0 ∨ Z i = 1) :
    (∑ i, (1 - Z i) * Y i) = maskSum Y Z 0 := by
  rw [maskSum_eq_sum_ite]
  refine Finset.sum_congr rfl (fun i _ => ?_)
  rcases hbin i with h | h <;> simp [h]

lemma sum_of_binary {n : ℕ} (Z : Fin n → ℝ)
    (hbin : ∀ i, Z i = 0 ∨ Z i = 1) :
    (∑ i, Z i) = (maskCard Z 1 : ℝ) := by
  rw [maskCard, ← Finset.sum_boole]
  refine Finset.sum_congr rfl (fun i _ => ?_)
  rcases hbin i with h | h <;> simp [h]

lemma sum_one_sub_of_binary {n : ℕ} (Z : Fin n → ℝ)
    (hbin : ∀ i, Z i = 0 ∨ Z i = 1) :
    (∑ i, (1 - Z i)) = (maskCard Z 0 : ℝ) := by
  rw [maskCard, ← Finset.sum_boole]
  refine Finset.sum_congr rfl (fun i _ => ?_)
  rcases hbin i with h | h <;> simp [h]

lemma maskCard_le {n : ℕ} (Z : Fin n → ℝ) (v : ℝ) : maskCard Z v ≤ n := by
  simpa [maskCard] using
    Finset.card_filter_le (Finset.univ : Finset (Fin n)) (fun i => Z i = v)

/-! ### Claims -/

/-- C5, counterexample: with both outcome predictions identically zero and
constant propensity 1/2 on `Y = [0,1,1]`, `Z = [0,1,1]`, AIPW returns
effect `4/3` while `est_via_ipw` with the same propensity (and its default
`normalize=True`) returns effect `1`, so the claimed agreement with "the
IPW estimator given the same propensity" fails. -/
theorem claim_C5_counterexample :
    (estViaAipw ![0, 1, 1] ![0, 1, 1] (fun _ => 0) (fun _ => 0)
        (fun _ => 1 / 2)).effect = 4 / 3
      ∧ (estViaIpw ![0, 1, 1] ![0, 1, 1] (fun _ => 1 / 2) true).effect = 1
      ∧ (4 / 3 : ℝ) ≠ 1 := by
  have hfix : fixPropensity (fun _ : Fin 3 => (1 : ℝ) / 2) =
      (fun _ => 1 / 2, none) :=
    fixPropensity_of_no_bad _ (fun i => by norm_num)
  refine ⟨?_, ?_, by norm_num⟩
  · simp only [estViaAipw, hfix, getResults_effect, npMean, Fin.sum_univ_three]
    norm_num
  · simp only [estViaIpw, hfix, if_true, getResults_effect, npMean,
      Fin.sum_univ_three]
    norm_num

/-- C5, amended claim: for every dataset and every propensity vector, AIPW
with both precomputed outcome predictions identically zero returns exactly
the same result record (in particular the same effect and standard error)
as IPW with the same propensity and `normalize=False`. -/
theorem claim_C5_aipw_zero_preds_eq_unnormalized_ipw {n : ℕ}
    (Y Z p : Fin n → ℝ) :
    estViaAipw Y Z (fun _ => 0) (fun _ => 0) p = estViaIpw Y Z p false := by
  simp only [estViaAipw, estViaIpw, Bool.false_eq_true, if_false]
  congr 1
  funext i
  ring

/-- C3, counterexample: on `Y=[1,2,3,4]`, `Z=[0,0,1,1]` the
difference-in-means estimator returns effect `2`, not `2.5` as the claim
states. -/
theorem claim_C3_counterexample :
    (estViaDm (expInit ![1, 2, 3, 4] ![0, 0, 1, 1])).2.effect = 2
      ∧ ((estViaDm (expInit ![1, 2, 3, 4] ![0, 0, 1, 1])).2.effect
          ≠ 2.5) := by
  have h : (estViaDm (expInit ![1, 2, 3, 4] ![0, 0, 1, 1])).2.effect = 2 := by
    simp only [estViaDm, expInit, calDm, buildResult_effect, maskMean,
      maskSum_eq_sum_ite, maskCard_eq_sum_ite, Fin.sum_univ_four]
    norm_num
  exact ⟨h, by rw [h]; norm_num⟩

/-- C3, amended claim: on `Y=[1,2,3,4]`, `Z=[0,0,1,1]`,
`X=ones((4,1))` the difference-in-means effect is `2.0`, which equals
`mean([3,4]) - mean([1,2])`. -/
theorem claim_C3_dm_effect :
    (estViaDm (expInit ![1, 2, 3, 4] ![0, 0, 1, 1])).2.effect = 2
      ∧ (estViaDm (expInit ![1, 2, 3, 4] ![0, 0, 1, 1])).2.effect
          = npMean ![3, 4] - npMean ![1, 2] := by
  have h : (estViaDm (expInit ![1, 2, 3, 4] ![0, 0, 1, 1])).2.effect = 2 := by
    simp only [estViaDm, expInit, calDm, buildResult_effect, maskMean,
      maskSum_eq_sum_ite, maskCard_eq_sum_ite, Fin.sum_univ_four]
    norm_num
  refine ⟨h, ?_⟩
  rw [h]
  simp only [npMean, Fin.sum_univ_two]
  norm_num

/-- C1: at the pseudo-outcome vector `G = [0, -2]` (effect `-1`, standard
error `1`) the result record has `z = effect/standard_error = -1` and the
stated confidence interval, but its p-value `(1 - Φ(-1))·2` is strictly
greater than 1: the code computes `(1 - norm.cdf(z))*2` instead of a
two-sided tail probability, so for negative effects the claimed bound
`p_value ∈ [0,1]` fails. -/
theorem claim_C1_pvalue_exceeds_one :
    (getResults ![0, -2]).effect = -1
      ∧ (getResults ![0, -2]).standard_error = 1
      ∧ (getResults ![0, -2]).z = -1
      ∧ (getResults ![0, -2]).confidence_interval
          = (-1 - 1.96 * 1, -1 + 1.96 * 1)
      ∧ 1 < (getResults ![0, -2]).p_value := by
  have hm : npMean ![(0 : ℝ), -2] = -1 := by
    simp only [npMean, Fin.sum_univ_two]
    norm_num
  have hv : npVar ![(0 : ℝ), -2] = 1 := by
    simp only [npVar, hm, Fin.sum_univ_two]
    norm_num
  have hres : getResults ![(0 : ℝ), -2] = buildResult (-1) 1 := by
    rw [getResults, hm, hv]
    norm_num
  rw [hres]
  have hΦ : normCdf (-1) < 1 / 2 := normCdf_lt_half (by norm_num)
  refine ⟨rfl, rfl, by norm_num, by norm_num, ?_⟩
  rw [buildResult_p]
  norm_num
  linarith

/-- C6: for a propensity vector with entries in `[0,1]`, `_fix_propensity`
maps the entries equal to 0 to `eps`, the entries equal to 1 to `1 - eps`,
leaves all other entries unchanged, and warns with the count of degenerate
entries exactly when that count is positive; a vector with no degenerate
entry is returned unchanged with no warning. -/
theorem claim_C6_fix_propensity {n : ℕ} (p : Fin n → ℝ)
    (_hrange : ∀ i, 0 ≤ p i ∧ p i ≤ 1) :
    ((fixPropensity p).2
        = if 0 < (Finset.univ.filter (fun i => p i = 0 ∨ p i = 1)).card
          then some ((Finset.univ.filter (fun i => p i = 0 ∨ p i = 1)).card)
          else none)
      ∧ (∀ i, p i = 0 → (fixPropensity p).1 i = eps)
      ∧ (∀ i, p i = 1 → (fixPropensity p).1 i = 1 - eps)
      ∧ (∀ i, p i ≠ 0 → p i ≠ 1 → (fixPropensity p).1 i = p i)
      ∧ ((∀ i, p i ≠ 0 ∧ p i ≠ 1) → fixPropensity p = (p, none)) := by
  have hfe : Finset.univ.filter (fun i => p i * (1 - p i) = 0)
      = Finset.univ.filter (fun i => p i = 0 ∨ p i = 1) := by
    refine Finset.filter_congr (fun i _ => ?_)
    rw [mul_eq_zero, sub_eq_zero, eq_comm (a := (1 : ℝ))]
  by_cases hbad :
      0 < (Finset.univ.filter (fun i => p i = 0 ∨ p i = 1)).card
  · have hfp : fixPropensity p =
        (fun i =>
          let a := if p i = 0 then p i + eps else p i
          if a = 1 then a - eps else a,
          some ((Finset.univ.filter (fun i => p i = 0 ∨ p i = 1)).card)) := by
      simp only [fixPropensity, hfe, if_pos hbad]
    refine ⟨by rw [hfp, if_pos hbad], ?_, ?_, ?_, ?_⟩
    · intro i hi
      rw [hfp]
      simp only [hi, if_pos rfl]
      norm_num [eps]
    · intro i hi
      rw [hfp]
      simp only [hi]
      norm_num
    · intro i h0 h1
      rw [hfp]
      simp only [if_neg h0, if_neg h1]
    · intro hnone
      exfalso
      obtain ⟨i, hi⟩ := Finset.card_pos.mp hbad
      rcases (Finset.mem_filter.mp hi).2 with h | h
      · exact (hnone i).1 h
      · exact (hnone i).2 h
  · have hnone : ∀ i, ¬(p i = 0 ∨ p i = 1) := by
      intro i hi
      exact hbad (Finset.card_pos.mpr
        ⟨i, Finset.mem_filter.mpr ⟨Finset.mem_univ i, hi⟩⟩)
    have hfp : fixPropensity p = (p, none) := by
      simp only [fixPropensity, hfe, if_neg hbad]
    refine ⟨by rw [hfp, if_neg hbad], ?_, ?_, ?_, fun _ => hfp⟩
    · intro i hi
      exact absurd (Or.inl hi) (hnone i)
    · intro i hi
      exact absurd (Or.inr hi) (hnone i)
    · intro i _ _
      rw [hfp]

/-- C6 witness: concrete evaluation on `p = [0, 1, 1/2]`. -/
theorem claim_C6_witness :
    (∀ i, 0 ≤ (![0, 1, 1 / 2] : Fin 3 → ℝ) i
        ∧ (![0, 1, 1 / 2] : Fin 3 → ℝ) i ≤ 1)
      ∧ (((fixPropensity (![0, 1, 1 / 2] : Fin 3 → ℝ)).2
          = if 0 < (Finset.univ.filter
                (fun i => (![0, 1, 1 / 2] : Fin 3 → ℝ) i = 0
                  ∨ (![0, 1, 1 / 2] : Fin 3 → ℝ) i = 1)).card
            then some ((Finset.univ.filter
                (fun i => (![0, 1, 1 / 2] : Fin 3 → ℝ) i = 0
                  ∨ (![0, 1, 1 / 2] : Fin 3 → ℝ) i = 1)).card)
            else none)
        ∧ (∀ i, (![0, 1, 1 / 2] : Fin 3 → ℝ) i = 0 →
            (fixPropensity (![0, 1, 1 / 2] : Fin 3 → ℝ)).1 i = eps)
        ∧ (∀ i, (![0, 1, 1 / 2] : Fin 3 → ℝ) i = 1 →
            (fixPropensity (![0, 1, 1 / 2] : Fin 3 → ℝ)).1 i = 1 - eps)
        ∧ (∀ i, (![0, 1, 1 / 2] : Fin 3 → ℝ) i ≠ 0 →
            (![0, 1, 1 / 2] : Fin 3 → ℝ) i ≠ 1 →
            (fixPropensity (![0, 1, 1 / 2] : Fin 3 → ℝ)).1 i
              = (![0, 1, 1 / 2] : Fin 3 → ℝ) i)
        ∧ ((∀ i, (![0, 1, 1 / 2] : Fin 3 → ℝ) i ≠ 0
              ∧ (![0, 1, 1 / 2] : Fin 3 → ℝ) i ≠ 1) →
            fixPropensity (![0, 1, 1 / 2] : Fin 3 → ℝ)
              = (![0, 1, 1 / 2], none))) :=
  ⟨fun i => by fin_cases i <;> norm_num,
   claim_C6_fix_propensity _ (fun i => by fin_cases i <;> norm_num)⟩

/-- C4, counterexample: on `Y = [0,1,1]`, `Z = [0,1,1]` (two treated, one
control) with constant propensity 1/2, IPW with `normalize=False` returns
effect `4/3`, while the claimed value
`2·(mean(Y|Z=1) − mean(Y|Z=0))` is `2`. -/
theorem claim_C4_counterexample :
    (estViaIpw ![0, 1, 1] ![0, 1, 1] (fun _ => 1 / 2) false).effect = 4 / 3
      ∧ 2 * (maskMean ![0, 1, 1] ![0, 1, 1] 1
          - maskMean ![0, 1, 1] ![0, 1, 1] 0) = 2
      ∧ (4 / 3 : ℝ) ≠ 2 := by
  have hfix : fixPropensity (fun _ : Fin 3 => (1 : ℝ) / 2) =
      (fun _ => 1 / 2, none) :=
    fixPropensity_of_no_bad _ (fun i => by norm_num)
  refine ⟨?_, ?_, by norm_num⟩
  · simp only [estViaIpw, hfix, Bool.false_eq_true, if_false,
      getResults_effect, npMean, Fin.sum_univ_three]
    norm_num
  · simp only [maskMean, maskSum_eq_sum_ite, maskCard_eq_sum_ite,
      Fin.sum_univ_three]
    norm_num

/-- C4, amended claim: for every dataset with binary `Z` and both arms
non-empty, IPW with constant precomputed propensity 1/2 and
`normalize=False` returns effect
`2·((sum(Y|Z=1) − sum(Y|Z=0))/n)` — i.e. twice the difference of the
Horvitz–Thompson arm averages over the full sample, not of the per-arm
means — and with `normalize=True` it returns exactly
`mean(Y|Z=1) − mean(Y|Z=0)`. -/
theorem claim_C4_ipw_half_propensity {n : ℕ} (Y Z : Fin n → ℝ)
    (hbin : ∀ i, Z i = 0 ∨ Z i = 1)
    (ht : 0 < maskCard Z 1) (hc : 0 < maskCard Z 0) :
    (estViaIpw Y Z (fun _ => 1 / 2) false).effect
        = 2 * ((maskSum Y Z 1 - maskSum Y Z 0) / n)
      ∧ (estViaIpw Y Z (fun _ => 1 / 2) true).effect
        = maskMean Y Z 1 - maskMean Y Z 0 := by
  have hfix : fixPropensity (fun _ : Fin n => (1 : ℝ) / 2) =
      (fun _ => 1 / 2, none) :=
    fixPropensity_of_no_bad _ (fun i => by norm_num)
  have hn : 0 < n := lt_of_lt_of_le ht (maskCard_le Z 1)
  have hnR : (0 : ℝ) < n := by exact_mod_cast hn
  have htR : (0 : ℝ) < (maskCard Z 1 : ℝ) := by exact_mod_cast ht
  have hcR : (0 : ℝ) < (maskCard Z 0 : ℝ) := by exact_mod_cast hc
  constructor
  · simp only [estViaIpw, hfix, Bool.false_eq_true, if_false,
      getResults_effect, npMean]
    have hsum : (∑ i, (Z i / (1 / 2) * Y i - (1 - Z i) / (1 - 1 / 2) * Y i))
        = 2 * maskSum Y Z 1 - 2 * maskSum Y Z 0 := by
      have h1 : (∑ i, (Z i / (1 / 2) * Y i - (1 - Z i) / (1 - 1 / 2) * Y i))
          = ∑ i, (2 * (Z i * Y i) - 2 * ((1 - Z i) * Y i)) :=
        Finset.sum_congr rfl (fun i _ => by ring)
      rw [h1, Finset.sum_sub_distrib, ← Finset.mul_sum, ← Finset.mul_sum,
        sum_mul_of_binary Y Z hbin, sum_one_sub_mul_of_binary Y Z hbin]
    rw [hsum]
    ring
  · simp only [estViaIpw, hfix, if_true, getResults_effect, npMean]
    have hw1 : (∑ j, Z j / (1 / 2 : ℝ)) = 2 * (maskCard Z 1 : ℝ) := by
      have h1 : (∑ j, Z j / (1 / 2 : ℝ)) = ∑ j, 2 * Z j :=
        Finset.sum_congr rfl (fun i _ => by ring)
      rw [h1, ← Finset.mul_sum, sum_of_binary Z hbin]
    have hw0 : (∑ j, (1 - Z j) / (1 - 1 / 2 : ℝ)) =
        2 * (maskCard Z 0 : ℝ) := by
      have h1 : (∑ j, (1 - Z j) / (1 - 1 / 2 : ℝ)) = ∑ j, 2 * (1 - Z j) :=
        Finset.sum_congr rfl (fun i _ => by ring)
      rw [h1, ← Finset.mul_sum, sum_one_sub_of_binary Z hbin]
    rw [hw1, hw0]
    have hsum : (∑ i, (Z i / (1 / 2) * Y i / (2 * (maskCard Z 1 : ℝ) / n)
          - (1 - Z i) / (1 - 1 / 2) * Y i / (2 * (maskCard Z 0 : ℝ) / n)))
        = (2 / (2 * (maskCard Z 1 : ℝ) / n)) * maskSum Y Z 1
          - (2 / (2 * (maskCard Z 0 : ℝ) / n)) * maskSum Y Z 0 := by
      have h1 : (∑ i, (Z i / (1 / 2) * Y i / (2 * (maskCard Z 1 : ℝ) / n)
            - (1 - Z i) / (1 - 1 / 2) * Y i / (2 * (maskCard Z 0 : ℝ) / n)))
          = ∑ i, ((2 / (2 * (maskCard Z 1 : ℝ) / n)) * (Z i * Y i)
            - (2 / (2 * (maskCard Z 0 : ℝ) / n)) * ((1 - Z i) * Y i)) :=
        Finset.sum_congr rfl (fun i _ => by ring)
      rw [h1, Finset.sum_sub_distrib, ← Finset.mul_sum, ← Finset.mul_sum,
        sum_mul_of_binary Y Z hbin, sum_one_sub_mul_of_binary Y Z hbin]
    rw [hsum, maskMean, maskMean, maskSum, maskSum]
    field_simp
    ring

/-- C4 witness: the amended identities instantiated on
`Y = [1,2,3,4]`, `Z = [0,0,1,1]`. -/
theorem claim_C4_witness :
    (∀ i, (![0, 0, 1, 1] : Fin 4 → ℝ) i = 0
        ∨ (![0, 0, 1, 1] : Fin 4 → ℝ) i = 1)
      ∧ 0 < maskCard (![0, 0, 1, 1] : Fin 4 → ℝ) 1
      ∧ 0 < maskCard (![0, 0, 1, 1] : Fin 4 → ℝ) 0
      ∧ ((estViaIpw ![1, 2, 3, 4] ![0, 0, 1, 1] (fun _ => 1 / 2) false).effect
          = 2 * ((maskSum ![1, 2, 3, 4] ![0, 0, 1, 1] 1
              - maskSum ![1, 2, 3, 4] ![0, 0, 1, 1] 0) / 4)
        ∧ (estViaIpw ![1, 2, 3, 4] ![0, 0, 1, 1] (fun _ => 1 / 2) true).effect
          = maskMean ![1, 2, 3, 4] ![0, 0, 1, 1] 1
              - maskMean ![1, 2, 3, 4] ![0, 0, 1, 1] 0) := by
  have hbin : ∀ i, (![0, 0, 1, 1] : Fin 4 → ℝ) i = 0
      ∨ (![0, 0, 1, 1] : Fin 4 → ℝ) i = 1 := by
    intro i
    fin_cases i <;> norm_num
  have ht : 0 < maskCard (![0, 0, 1, 1] : Fin 4 → ℝ) 1 := by
    rw [maskCard_eq_sum_ite, Fin.sum_univ_four]
    norm_num
  have hc : 0 < maskCard (![0, 0, 1, 1] : Fin 4 → ℝ) 0 := by
    rw [maskCard_eq_sum_ite, Fin.sum_univ_four]
    norm_num
  exact ⟨hbin, ht, hc,
    claim_C4_ipw_half_propensity ![1, 2, 3, 4] ![0, 0, 1, 1] hbin ht hc⟩

lemma length_npSelect {α : Type} (v : ℝ) (A : List α) :
    ∀ z : List ℝ, A.length = z.length →
      (npSelect A z v).length = z.countP (fun b => decide (b = v)) := by
  induction A with
  | nil =>
    intro z h
    cases z with
    | nil => simp [npSelect]
    | cons b z => simp at h
  | cons a A ih =>
    intro z h
    cases z with
    | nil => simp at h
    | cons b z =>
      have hlen : A.length = z.length := by simpa using h
      have ihz := ih z hlen
      by_cases hb : b = v
      · simp only [npSelect, List.zip_cons_cons, List.filter_cons,
          List.countP_cons] at *
        simp [hb, ihz]
      · simp only [npSelect, List.zip_cons_cons, List.filter_cons,
          List.countP_cons] at *
        simp [hb, ihz]

lemma countP_binary_split (z : List ℝ) (hbin : ∀ v ∈ z, v = 0 ∨ v = 1) :
    z.countP (fun b => decide (b = 1)) + z.countP (fun b => decide (b = 0))
      = z.length := by
  induction z with
  | nil => simp
  | cons b z ih =>
    have hb := hbin b (List.mem_cons_self b z)
    have ih' := ih (fun v hv => hbin v (List.mem_cons_of_mem b hv))
    rcases hb with h | h <;> simp [List.countP_cons, h] <;> omega

/-- C9, counterexample: `Y = [1]`, `Z = [0.5]`, `X = [[1]]` is accepted by
construction (equal-length ndarrays; real-valued `Z` as permitted for
DML), yet both partitions are empty: `nt + nc = 0 ≠ 1 = n`, refuting the
claim for non-binary `Z`. -/
theorem claim_C9_counterexample :
    (mkPOdata (NpVec.arr [1]) (NpVec.arr [0.5]) (NpMat.arr [[1]])).derived
        = some ⟨1, [], [], [], []⟩
      ∧ (0 + 0 : ℕ) ≠ 1 := by
  constructor
  · have h1 : npSelect [(1 : ℝ)] [(0.5 : ℝ)] 1 = [] := by
      simp only [npSelect, List.zip_cons_cons, List.zip_nil_right,
        List.filter_cons, List.filter_nil]
      norm_num
    have h0 : npSelect [(1 : ℝ)] [(0.5 : ℝ)] 0 = [] := by
      simp only [npSelect, List.zip_cons_cons, List.zip_nil_right,
        List.filter_cons, List.filter_nil]
      norm_num
    have h1x : npSelect [[(1 : ℝ)]] [(0.5 : ℝ)] 1 = [] := by
      simp only [npSelect, List.zip_cons_cons, List.zip_nil_right,
        List.filter_cons, List.filter_nil]
      norm_num
    have h0x : npSelect [[(1 : ℝ)]] [(0.5 : ℝ)] 0 = [] := by
      simp only [npSelect, List.zip_cons_cons, List.zip_nil_right,
        List.filter_cons, List.filter_nil]
      norm_num
    simp [mkPOdata, h1, h0, h1x, h0x]
  · norm_num

/-- C9, amended claim: for every accepted input triple, construction
derives the partition sub-arrays, `len(Yt)` is the number of `Z`-entries
equal to 1 and `len(Yc)` the number equal to 0 (so `len(Yt) = nt` and
`len(Yc) = nc` by definition of the partition sizes); when `Z` is binary
these add up to `n`. -/
theorem claim_C9_partition_sizes (y z : List ℝ) (x : List (List ℝ))
    (hyz : y.length = z.length) (hzx : z.length = x.length)
    (hbin : ∀ v ∈ z, v = 0 ∨ v = 1) :
    (mkPOdata (NpVec.arr y) (NpVec.arr z) (NpMat.arr x)).derived
        = some ⟨y.length, npSelect y z 1, npSelect y z 0,
                npSelect x z 1, npSelect x z 0⟩
      ∧ (npSelect y z 1).length = z.countP (fun b => decide (b = 1))
      ∧ (npSelect y z 0).length = z.countP (fun b => decide (b = 0))
      ∧ (npSelect y z 1).length + (npSelect y z 0).length = y.length := by
  refine ⟨?_, length_npSelect 1 y z hyz, length_npSelect 0 y z hyz, ?_⟩
  · simp [mkPOdata, hyz, hzx]
  · rw [length_npSelect 1 y z hyz, length_npSelect 0 y z hyz, hyz]
    exact countP_binary_split z hbin

/-- C9 witness: concrete evaluation on `Y=[1,2]`, `Z=[0,1]`,
`X=[[1],[2]]`. -/
theorem claim_C9_witness :
    ([(1 : ℝ), 2].length = [(0 : ℝ), 1].length
        ∧ [(0 : ℝ), 1].length = [[(1 : ℝ)], [2]].length
        ∧ ∀ v ∈ [(0 : ℝ), 1], v = 0 ∨ v = 1)
      ∧ ((mkPOdata (NpVec.arr [1, 2]) (NpVec.arr [0, 1])
            (NpMat.arr [[1], [2]])).derived
          = some ⟨[(1 : ℝ), 2].length, npSelect [1, 2] [0, 1] 1,
                  npSelect [1, 2] [0, 1] 0, npSelect [[1], [2]] [0, 1] 1,
                  npSelect [[1], [2]] [0, 1] 0⟩
        ∧ (npSelect [(1 : ℝ), 2] [(0 : ℝ), 1] 1).length
            = [(0 : ℝ), 1].countP (fun b => decide (b = 1))
        ∧ (npSelect [(1 : ℝ), 2] [(0 : ℝ), 1] 0).length
            = [(0 : ℝ), 1].countP (fun b => decide (b = 0))
        ∧ (npSelect [(1 : ℝ), 2] [(0 : ℝ), 1] 1).length
            + (npSelect [(1 : ℝ), 2] [(0 : ℝ), 1] 0).length
            = [(1 : ℝ), 2].length) := by
  have hbin : ∀ v ∈ [(0 : ℝ), 1], v = 0 ∨ v = 1 := by
    intro v hv
    simp only [List.mem_cons, List.not_mem_nil, or_false] at hv
    rcases hv with h | h
    · exact Or.inl h
    · exact Or.inr h
  exact ⟨⟨rfl, rfl, hbin⟩,
    claim_C9_partition_sizes [1, 2] [0, 1] [[1], [2]] rfl rfl hbin⟩

/-- C2, counterexample: on the length-mismatched input `Y=[1]`,
`Z=[1,2]`, `X=[[1],[2]]` the constructor does not abort: it completes and
returns the object with the inputs stored, the derived attributes unset
and an error logged — while the spec-side constructor (the claim's
behaviour) aborts with a `ValidationError`. -/
theorem claim_C2_counterexample :
    mkPOdata (NpVec.arr [1]) (NpVec.arr [1, 2]) (NpMat.arr [[1], [2]])
        = ⟨NpVec.arr [1], NpVec.arr [1, 2], NpMat.arr [[1], [2]], none, true⟩
      ∧ mkPOdataSpec (NpVec.arr [1]) (NpVec.arr [1, 2]) (NpMat.arr [[1], [2]])
        = Except.error "ValidationError" := by
  constructor
  · simp [mkPOdata]
  · simp [mkPOdataSpec, verifyData]

/-- C2, amended claim: when `verify_data` fails (inputs not all ndarrays
of one length), construction completes without raising: the inputs are
stored, the derived partition attributes stay unset, and an error is
logged. -/
theorem claim_C2_invalid_input_logs (Y Z : NpVec) (X : NpMat)
    (hinvalid : verifyData Y Z X = false) :
    (mkPOdata Y Z X).derived = none
      ∧ (mkPOdata Y Z X).loggedError = true
      ∧ (mkPOdata Y Z X).Y = Y ∧ (mkPOdata Y Z X).Z = Z
      ∧ (mkPOdata Y Z X).X = X := by
  cases Y with
  | notArray => cases Z <;> cases X <;> simp [mkPOdata]
  | arr y =>
    cases Z with
    | notArray => cases X <;> simp [mkPOdata]
    | arr z =>
      cases X with
      | notArray => simp [mkPOdata]
      | arr x =>
        have hne : ¬(y.length = z.length ∧ z.length = x.length) := by
          intro hcontra
          rw [verifyData, decide_eq_false_iff_not] at hinvalid
          exact hinvalid hcontra
        simp [mkPOdata, hne]

/-- C2 witness: the amended behaviour at the concrete mismatched input. -/
theorem claim_C2_witness :
    verifyData (NpVec.arr [1]) (NpVec.arr [1, 2]) (NpMat.arr [[1], [2]])
        = false
      ∧ ((mkPOdata (NpVec.arr [1]) (NpVec.arr [1, 2])
            (NpMat.arr [[1], [2]])).derived = none
        ∧ (mkPOdata (NpVec.arr [1]) (NpVec.arr [1, 2])
            (NpMat.arr [[1], [2]])).loggedError = true
        ∧ (mkPOdata (NpVec.arr [1]) (NpVec.arr [1, 2])
            (NpMat.arr [[1], [2]])).Y = NpVec.arr [1]
        ∧ (mkPOdata (NpVec.arr [1]) (NpVec.arr [1, 2])
            (NpMat.arr [[1], [2]])).Z = NpVec.arr [1, 2]
        ∧ (mkPOdata (NpVec.arr [1]) (NpVec.arr [1, 2])
            (NpMat.arr [[1], [2]])).X = NpMat.arr [[1], [2]]) := by
  have h : verifyData (NpVec.arr [1]) (NpVec.arr [1, 2])
      (NpMat.arr [[1], [2]]) = false := by
    simp [verifyData]
  exact ⟨h, claim_C2_invalid_input_logs _ _ _ h⟩

/-- C10: on a fresh `Experimental` object both the statistic function and
the observed statistic are `None`, and calling the Fisher test then fails
(returns no p-value); after `est_via_dm` has run, the test returns the
minimum of the two resampled tail frequencies, which lies in `[0,1]`. -/
theorem claim_C10_fisher_test {n : ℕ} (Y Z : Fin n → ℝ)
    (draws : List (Fin n → ℝ)) (hd : 0 < draws.length) :
    (expInit Y Z).stats = none
      ∧ (expInit Y Z).cal_stats = none
      ∧ testViaFisher (expInit Y Z) draws = none
      ∧ testViaFisher (estViaDm (expInit Y Z)).1 draws
          = some (min
              ((((draws.map (fun Zs => maskMean Y Zs 1 - maskMean Y Zs 0)).filter
                  (fun x =>
                    decide (maskMean Y Z 1 - maskMean Y Z 0 < x))).length : ℝ)
                / draws.length)
              ((((draws.map (fun Zs => maskMean Y Zs 1 - maskMean Y Zs 0)).filter
                  (fun x =>
                    decide (x < maskMean Y Z 1 - maskMean Y Z 0))).length : ℝ)
                / draws.length))
      ∧ (∀ v, testViaFisher (estViaDm (expInit Y Z)).1 draws = some v →
          0 ≤ v ∧ v ≤ 1) := by
  have hmain : testViaFisher (estViaDm (expInit Y Z)).1 draws
      = some (min
          ((((draws.map (fun Zs => maskMean Y Zs 1 - maskMean Y Zs 0)).filter
              (fun x =>
                decide (maskMean Y Z 1 - maskMean Y Z 0 < x))).length : ℝ)
            / draws.length)
          ((((draws.map (fun Zs => maskMean Y Zs 1 - maskMean Y Zs 0)).filter
              (fun x =>
                decide (x < maskMean Y Z 1 - maskMean Y Z 0))).length : ℝ)
            / draws.length)) := by
    simp only [estViaDm, expInit, testViaFisher, List.length_map]
  refine ⟨rfl, rfl, rfl, hmain, ?_⟩
  intro v hv
  rw [hmain, Option.some_inj] at hv
  have hdR : (0 : ℝ) < draws.length := by exact_mod_cast hd
  have hfrac : ∀ pred : ℝ → Bool,
      (0 : ℝ) ≤ (((draws.map
          (fun Zs => maskMean Y Zs 1 - maskMean Y Zs 0)).filter pred).length : ℝ)
          / draws.length
        ∧ (((draws.map
          (fun Zs => maskMean Y Zs 1 - maskMean Y Zs 0)).filter pred).length : ℝ)
          / draws.length ≤ 1 := by
    intro pred
    constructor
    · exact div_nonneg (Nat.cast_nonneg _) hdR.le
    · rw [div_le_one hdR]
      have := le_trans
        (List.length_filter_le pred
          (draws.map (fun Zs => maskMean Y Zs 1 - maskMean Y Zs 0)))
        (le_of_eq (List.length_map draws _))
      exact_mod_cast this
  rw [← hv]
  constructor
  · exact le_min (hfrac _).1 (hfrac _).1
  · exact le_trans (min_le_left _ _) (hfrac _).2

/-- C10 witness: concrete instantiation with `Y=[1,2]`, `Z=[0,1]` and a
single drawn assignment `[1,0]`. -/
theorem claim_C10_witness :
    0 < ([![(1 : ℝ), 0]] : List (Fin 2 → ℝ)).length
      ∧ ((expInit ![(1 : ℝ), 2] ![(0 : ℝ), 1]).stats = none
        ∧ (expInit ![(1 : ℝ), 2] ![(0 : ℝ), 1]).cal_stats = none
        ∧ testViaFisher (expInit ![(1 : ℝ), 2] ![(0 : ℝ), 1]) [![1, 0]] = none
        ∧ testViaFisher
            (estViaDm (expInit ![(1 : ℝ), 2] ![(0 : ℝ), 1])).1 [![1, 0]]
            = some (min
                (((([![(1 : ℝ), 0]].map
                    (fun Zs => maskMean ![(1 : ℝ), 2] Zs 1
                      - maskMean ![(1 : ℝ), 2] Zs 0)).filter
                    (fun x =>
                      decide (maskMean ![(1 : ℝ), 2] ![(0 : ℝ), 1] 1
                        - maskMean ![(1 : ℝ), 2] ![(0 : ℝ), 1] 0 < x))).length : ℝ)
                  / ([![(1 : ℝ), 0]] : List (Fin 2 → ℝ)).length)
                (((([![(1 : ℝ), 0]].map
                    (fun Zs => maskMean ![(1 : ℝ), 2] Zs 1
                      - maskMean ![(1 : ℝ), 2] Zs 0)).filter
                    (fun x =>
                      decide (x < maskMean ![(1 : ℝ), 2] ![(0 : ℝ), 1] 1
                        - maskMean ![(1 : ℝ), 2] ![(0 : ℝ), 1] 0))).length : ℝ)
                  / ([![(1 : ℝ), 0]] : List (Fin 2 → ℝ)).length))
        ∧ (∀ v, testViaFisher
              (estViaDm (expInit ![(1 : ℝ), 2] ![(0 : ℝ), 1])).1 [![1, 0]]
                = some v →
            0 ≤ v ∧ v ≤ 1)) :=
  ⟨by norm_num,
   claim_C10_fisher_test ![(1 : ℝ), 2] ![(0 : ℝ), 1] [![1, 0]] (by norm_num)⟩

/-- C7: with bias adjustment off, the matching estimator imputes each
missing potential outcome as the mean outcome over the unit's `M` matched
opposite-arm neighbours, forms `ITT_t = Yt - Yhat_t` and
`ITT_c = Yhat_c - Yc`, and returns
`ATE = (nc/n)*mean(ITT_c) + (nt/n)*mean(ITT_t)`. -/
theorem claim_C7_matching_ate (nt nc M J : ℕ)
    (_hnt : 0 < nt) (_hnc : 0 < nc) (_hM : 0 < M)
    (Yt : Fin nt → ℝ) (Yc : Fin nc → ℝ)
    (matchT : Fin nt → Fin M → Fin nc) (matchC : Fin nc → Fin M → Fin nt)
    (matchTT : Fin nt → Fin (J + 1) → Fin nt)
    (matchCC : Fin nc → Fin (J + 1) → Fin nc)
    (mu0t : Fin nt → ℝ) (mu0c : Fin nc → ℝ)
    (mu1t : Fin nt → ℝ) (mu1c : Fin nc → ℝ) :
    (estViaMatching nt nc M J Yt Yc matchT matchC matchTT matchCC false
        mu0t mu0c mu1t mu1c).effect
      = ((nc : ℝ) / ((nt : ℝ) + (nc : ℝ)))
          * ((∑ c, ((∑ j, Yt (matchC c j)) / (M : ℝ) - Yc c)) / (nc : ℝ))
        + ((nt : ℝ) / ((nt : ℝ) + (nc : ℝ)))
          * ((∑ t, (Yt t - (∑ j, Yc (matchT t j)) / (M : ℝ))) / (nt : ℝ)) := by
  simp only [estViaMatching, buildResult_effect, npMean, Bool.false_eq_true,
    if_false]
  push_cast
  ring

/-- C7 witness: concrete instantiation with one treated and one control
unit and `M = 1`. -/
theorem claim_C7_witness :
    (0 < 1 ∧ 0 < 1 ∧ 0 < 1)
      ∧ (estViaMatching 1 1 1 0 ![2] ![0] (fun _ _ => 0) (fun _ _ => 0)
          (fun _ _ => 0) (fun _ _ => 0) false (fun _ => 0) (fun _ => 0)
          (fun _ => 0) (fun _ => 0)).effect
        = (((1 : ℕ) : ℝ) / (((1 : ℕ) : ℝ) + ((1 : ℕ) : ℝ)))
            * ((∑ c : Fin 1, ((∑ _j : Fin 1, (![2] : Fin 1 → ℝ) 0)
                / ((1 : ℕ) : ℝ) - (![0] : Fin 1 → ℝ) c)) / ((1 : ℕ) : ℝ))
          + (((1 : ℕ) : ℝ) / (((1 : ℕ) : ℝ) + ((1 : ℕ) : ℝ)))
            * ((∑ t : Fin 1, ((![2] : Fin 1 → ℝ) t
                - (∑ _j : Fin 1, (![0] : Fin 1 → ℝ) 0) / ((1 : ℕ) : ℝ)))
              / ((1 : ℕ) : ℝ)) :=
  ⟨⟨Nat.one_pos, Nat.one_pos, Nat.one_pos⟩,
   claim_C7_matching_ate 1 1 1 0 Nat.one_pos Nat.one_pos Nat.one_pos
     ![2] ![0] (fun _ _ => 0) (fun _ _ => 0) (fun _ _ => 0) (fun _ _ => 0)
     (fun _ => 0) (fun _ => 0) (fun _ => 0) (fun _ => 0)⟩

/-! ### C8: cross-fitting fold lemmas -/

lemma foldStart_closed (n K : ℕ) :
    ∀ t, foldStart n K t = t * (n / K) + min t (n % K) := by
  intro t
  induction t with
  | zero => simp [foldStart]
  | succ t ih =>
    rw [foldStart, ih, foldSize]
    by_cases h : t < n % K
    · rw [if_pos h, min_eq_left h.le, min_eq_left (Nat.succ_le_of_lt h)]
      simp only [Nat.succ_eq_add_one]
      ring
    · push_neg at h
      rw [if_neg (not_lt.mpr h), min_eq_right h,
        min_eq_right (le_trans h (Nat.le_succ t))]
      ring

lemma foldStart_self (n K : ℕ) (hK : 0 < K) : foldStart n K K = n := by
  rw [foldStart_closed]
  rw [min_eq_right (Nat.mod_lt n hK).le]
  have h := Nat.div_add_mod n K
  calc K * (n / K) + n % K = n := h

lemma range_flatMap_kfTest (n K : ℕ) (hK : 0 < K) :
    (List.range K).flatMap (kfTest n K) = List.range n := by
  suffices h : ∀ t, (List.range t).flatMap (kfTest n K)
      = List.range (foldStart n K t) by
    rw [h K, foldStart_self n K hK]
  intro t
  induction t with
  | zero => simp [foldStart]
  | succ t ih =>
    rw [List.range_succ, List.flatMap_append, ih]
    simp only [List.flatMap_cons, List.flatMap_nil, List.append_nil]
    rw [foldStart, List.range_add]
    rfl

lemma mem_kfTrain (n K i m : ℕ) :
    m ∈ kfTrain n K i ↔ m < n ∧ m ∉ kfTest n K i := by
  simp [kfTrain, List.mem_filter, List.mem_range]

/-- C8: the held-out folds of the DML estimator partition the index range
exactly once, each training set is precisely the complement of its
held-out fold within the index range, and the returned effect is the mean
over folds of `theta_k = V.dot(U)/V.dot(V)` computed from the held-out
residuals of models fit on the training rows only. -/
theorem claim_C8_dml_crossfit {α : Type} (n K : ℕ) (hK : 2 ≤ K) (_hKn : K ≤ n)
    (Y Z : ℕ → ℝ) (X : ℕ → α)
    (fitO fitT : List α → List ℝ → (α → ℝ)) :
    ((List.range K).flatMap (kfTest n K) = List.range n)
      ∧ (∀ i m, m ∈ kfTrain n K i ↔ m < n ∧ m ∉ kfTest n K i)
      ∧ (estViaDml n Y Z X fitO fitT K).effect
          = ((List.range K).map (fun i =>
              listDot
                ((kfTest n K i).map (fun m =>
                  Z m - fitT ((kfTrain n K i).map X)
                    ((kfTrain n K i).map Z) (X m)))
                ((kfTest n K i).map (fun m =>
                  Y m - fitO ((kfTrain n K i).map X)
                    ((kfTrain n K i).map Y) (X m)))
              / listDot
                ((kfTest n K i).map (fun m =>
                  Z m - fitT ((kfTrain n K i).map X)
                    ((kfTrain n K i).map Z) (X m)))
                ((kfTest n K i).map (fun m =>
                  Z m - fitT ((kfTrain n K i).map X)
                    ((kfTrain n K i).map Z) (X m))))).sum
            / (K : ℝ) := by
  refine ⟨range_flatMap_kfTest n K (lt_of_lt_of_le two_pos hK),
    fun i m => mem_kfTrain n K i m, ?_⟩
  simp only [estViaDml, buildResult_effect, listMean, List.map_map,
    List.length_map, List.length_range]
  rfl

/-- C8 witness: `n = 5`, `K = 2`, trivial constant-zero learning models. -/
theorem claim_C8_witness :
    (2 ≤ 2 ∧ 2 ≤ 5)
      ∧ (((List.range 2).flatMap (kfTest 5 2) = List.range 5)
        ∧ (∀ i m, m ∈ kfTrain 5 2 i ↔ m < 5 ∧ m ∉ kfTest 5 2 i)
        ∧ (estViaDml 5 (fun m => (m : ℝ)) (fun m => (m : ℝ) + 1)
              (fun _ => ()) (fun _ _ => fun _ => 0)
              (fun _ _ => fun _ => 0) 2).effect
            = ((List.range 2).map (fun i =>
                listDot
                  ((kfTest 5 2 i).map (fun m => ((m : ℝ) + 1) - 0))
                  ((kfTest 5 2 i).map (fun m => (m : ℝ) - 0))
                / listDot
                  ((kfTest 5 2 i).map (fun m => ((m : ℝ) + 1) - 0))
                  ((kfTest 5 2 i).map (fun m => ((m : ℝ) + 1) - 0)))).sum
              / ((2 : ℕ) : ℝ)) :=
  ⟨⟨le_refl 2, by norm_num⟩,
   claim_C8_dml_crossfit 5 2 (le_refl 2) (by norm_num)
     (fun m => (m : ℝ)) (fun m => (m : ℝ) + 1) (fun _ => ())
     (fun _ _ => fun _ => 0) (fun _ _ => fun _ => 0)⟩

end







